import Mathlib

/-!
Verification development for the AURAH `Butcher` detection-postprocessing core
(`src/modules/butcher.py`).

The three components are embedded shallowly:

* Decoder (`get_coordinates`, lines 115-162): decodes raw detection rows into a
  category-keyed collection of candidates.  The source binds
  `img_height, img_width = ()` (line 136), an unpacking of the empty tuple that
  raises `ValueError` before any row is scanned; `get_coordinates` below models
  that faithfully, while `get_coordinatesGo` models the loop of lines 138-161
  with the image dimensions as explicit parameters (the spec, §9, treats the
  empty-tuple binding as a bug and assumes caller-supplied dimensions).
* Suppressor (`remove_overlapping_items`, lines 76-113): per category, calls
  `cv2.dnn.NMSBoxes` and keeps the items it selects.  `NMSBoxes` is an external
  OpenCV routine, modelled from the spec (§4.2) as greedy non-maximum
  suppression: score filtering, stable confidence-descending sort, greedy
  selection removing items whose IoU with a kept item exceeds the threshold.
* Extractor (`extract_image_segments`, lines 164-201): crops the image with
  Python/numpy slice semantics `image[zone[2]:zone[3], zone[0]:zone[1]]` and
  converts BGR to RGB (`cv2.cvtColor`, external, modelled from the spec as a
  per-pixel channel swap).

Numbers are modelled as `ℚ` (Python floats) and `ℤ` (Python ints); dictionaries
as insertion-ordered association lists; a raised exception as `Except.error`.
-/

namespace AURAH

attribute [local semireducible] Rat.mul Rat.inv Rat.add Rat.sub

/-- Error kinds raised by the modelled Python code. -/
inductive PyErr where
  | valueError
deriving DecidableEq, Repr

/-- Keyed collection shape used by all three components
(`DataPack = Dict[K, List[V]]` in `src/resources/custom_typing.py`),
modelled as an insertion-ordered association list. -/
abbrev DataPack (K V : Type) := List (K × List V)

/-- Dictionary lookup `dp[k]` returning `none` for an absent key. -/
def dictFind {K V : Type} [DecidableEq K] : DataPack K V → K → Option (List V)
  | [], _ => none
  | (k0, l) :: rest, k => if k = k0 then some l else dictFind rest k

/-- Dictionary update modelling lines 148-149 and 160 of `butcher.py`:
`if k not in fridge: fridge[k] = []` followed by `fridge[k].append(v)`.
A new key is inserted at the end, matching Python dict insertion order. -/
def dictAppend {K V : Type} [DecidableEq K] : DataPack K V → K → V → DataPack K V
  | [], k, v => [(k, [v])]
  | (k0, l) :: rest, k, v =>
      if k = k0 then (k0, l ++ [v]) :: rest else (k0, l) :: dictAppend rest k v

/-- Python `int(q)` on a float: truncation toward zero, i.e. the truncated
division of the numerator by the (positive) denominator.  The helper theorem
`pyInt_trunc` below identifies it with floor on nonnegative and ceiling on
negative arguments. -/
def pyInt (q : ℚ) : ℤ := q.num.tdiv (q.den : ℤ)

/-- Modelled from the spec: `np.argmax` (external NumPy routine) — the index of
the maximum value of the list, the first occurrence on ties.  On the empty list
NumPy raises; this total model returns `0` there and every theorem that uses it
assumes a nonempty score vector. -/
def argmaxQ : List ℚ → ℕ
  | [] => 0
  | [_] => 0
  | a :: b :: rest =>
      if (b :: rest).getD (argmaxQ (b :: rest)) 0 ≤ a then 0
      else argmaxQ (b :: rest) + 1

/-- Raw detection row: a vector of numeric fields
(`detection` in `butcher.py`, lines 142-158). -/
abbrev Row := List ℚ

/-- Per-item data appended by the Decoder at lines 156-159: the flat 5-tuple
`(int(x), int(x + w), int(y), int(y + h), score)`. -/
abbrev Data5 := ℤ × ℤ × ℤ × ℤ × ℚ

/-- Decoding of one row, lines 143-159 of `butcher.py`:
`scores = detection[5:]`, `single_key = np.argmax(scores)`,
`score = scores[single_key]`, then the box arithmetic
`w = detection[2]*img_width`, `h = detection[3]*img_height`,
`x = detection[0]*img_width - w/2`, `y = detection[1]*img_height - h/2`
and the tuple `(int(x), int(x + w), int(y), int(y + h), score)`. -/
def rowData (img_width img_height : ℚ) (d : Row) : Data5 :=
  let scores := d.drop 5
  let score := scores.getD (argmaxQ scores) 0
  let w := d.getD 2 0 * img_width
  let h := d.getD 3 0 * img_height
  let x := d.getD 0 0 * img_width - w / 2
  let y := d.getD 1 0 * img_height - h / 2
  (pyInt x, pyInt (x + w), pyInt y, pyInt (y + h), score)

/-- Processing of one row of the Decoder loop, lines 143-160 of `butcher.py`:
compute `single_key = np.argmax(detection[5:])` and, when it is among the
retained keys, append the decoded tuple to that key's list (creating the key's
list lazily). -/
def processRow (img_width img_height : ℚ) (keys : List ℕ)
    (fridge : DataPack ℕ Data5) (d : Row) : DataPack ℕ Data5 :=
  if argmaxQ (d.drop 5) ∈ keys then
    dictAppend fridge (argmaxQ (d.drop 5)) (rowData img_width img_height d)
  else fridge

/-- Argument `keys` of `get_coordinates`: either a single key or a list of keys
(`Union[Any, List[Any]]`). -/
inductive KeysArg where
  | single (k : ℕ)
  | list (ks : List ℕ)
deriving DecidableEq, Repr

/-- Normalization of the `keys` argument, lines 138-139 of `butcher.py`:
`if not isinstance(keys, list): keys = [keys]`. -/
def keysToList : KeysArg → List ℕ
  | .single k => [k]
  | .list ks => ks

/-- Decoder loop of `get_coordinates`, lines 138-162 of `butcher.py`, with the
image dimensions as explicit parameters (the source reads them from the
unpacking at line 136, which always raises; the spec, §9, treats that as a bug
and assumes caller-supplied dimensions).  `fridge = {}`; then
`for detections in output_data: for detection in detections: ...`. -/
def get_coordinatesGo (img_width img_height : ℚ)
    (output_data : List (List Row)) (keys : KeysArg) : DataPack ℕ Data5 :=
  output_data.foldl
    (fun fridge detections =>
      detections.foldl (processRow img_width img_height (keysToList keys)) fridge)
    []

/-- Python unpacking `a, b = t` of a sequence `t` into two names:
raises `ValueError` unless `t` has exactly two elements. -/
def unpackPair : List ℚ → Except PyErr (ℚ × ℚ)
  | [a, b] => .ok (a, b)
  | _ => .error .valueError

/-- Decoder `get_coordinates`, lines 115-162 of `butcher.py`.  Line 136 binds
`img_height, img_width = ()` — unpacking the empty tuple — which raises
`ValueError` before the loop runs; were it to succeed, the loop of
`get_coordinatesGo` would run with the unpacked dimensions. -/
def get_coordinates (output_data : List (List Row)) (keys : KeysArg) :
    Except PyErr (DataPack ℕ Data5) :=
  match unpackPair [] with
  | .error e => .error e
  | .ok (img_height, img_width) =>
      .ok (get_coordinatesGo img_width img_height output_data keys)

/-- Pixel-space box as the Decoder produces it and the Extractor consumes it:
`(x_min, x_max, y_min, y_max)`. -/
abbrev Zone := ℤ × ℤ × ℤ × ℤ

/-- Candidate item of the Suppressor's declared input shape
`Tuple[ZoneInt, float]`: a box paired with a confidence score. -/
abbrev Item := Zone × ℚ

instance : DecidableEq (ℕ × List Item) := instDecidableEqProd

instance : DecidableEq (ℕ × List Data5) := instDecidableEqProd

/-- Modelled from the spec (§4.2): area of an axis-aligned box used by the
IoU computation of the external suppression routine (clamped at zero so that
inverted boxes count as empty). -/
def boxArea (z : Zone) : ℚ :=
  max 0 ((z.2.1 : ℚ) - (z.1 : ℚ)) * max 0 ((z.2.2.2 : ℚ) - (z.2.2.1 : ℚ))

/-- Modelled from the spec (§4.2): intersection area of two axis-aligned
boxes. -/
def interArea (a b : Zone) : ℚ :=
  max 0 (min (a.2.1 : ℚ) (b.2.1 : ℚ) - max (a.1 : ℚ) (b.1 : ℚ)) *
  max 0 (min (a.2.2.2 : ℚ) (b.2.2.2 : ℚ) - max (a.2.2.1 : ℚ) (b.2.2.1 : ℚ))

/-- Modelled from the spec (§4.2): intersection-over-union,
`intersection area ÷ (area(A) + area(B) − intersection area)`; zero-area boxes
yield IoU 0 against any box (in `ℚ`, division by zero is zero). -/
def iou (a b : Zone) : ℚ :=
  interArea a b / (boxArea a + boxArea b - interArea a b)

/-- Confidence-descending comparison used to order candidates
(higher score first). -/
def scoreGe (a b : Item) : Prop := b.2 ≤ a.2

instance : DecidableRel scoreGe := fun a b => inferInstanceAs (Decidable (b.2 ≤ a.2))

instance : IsTotal Item scoreGe := ⟨fun a b => le_total b.2 a.2⟩

instance : IsTrans Item scoreGe := ⟨fun _ _ _ h1 h2 => le_trans h2 h1⟩

/-- Modelled from the spec (§4.2, step 3): greedy selection — keep the
highest-remaining candidate and drop every remaining candidate whose IoU with
it exceeds the threshold.  The first argument is recursion fuel; the list
shrinks at every step, so any fuel at least the list's length (as used by
`nmsKeep`) gives the greedy selection, and the fuel-exhausted branch is never
reached. -/
def nmsKeepFuel (nms_threshold : ℚ) : ℕ → List Item → List Item
  | _, [] => []
  | 0, x :: _ => [x]
  | fuel + 1, x :: rest =>
      x :: nmsKeepFuel nms_threshold fuel
        (rest.filter (fun y => decide (iou x.1 y.1 ≤ nms_threshold)))

/-- Greedy non-maximum suppression selection (`nmsKeepFuel` with enough
fuel). -/
def nmsKeep (nms_threshold : ℚ) (l : List Item) : List Item :=
  nmsKeepFuel nms_threshold l.length l

/-- Modelled from the spec: `cv2.dnn.NMSBoxes` (external OpenCV routine)
composed with the indexing `[all_data[x] for x in indexes]` of line 111 —
per §4.2: discard candidates with confidence below `score_threshold`, sort the
rest by confidence descending (stable), then greedily keep and suppress; the
result lists the kept items in selection order. -/
def nmsBoxesKeep (items : List Item) (score_threshold nms_threshold : ℚ) :
    List Item :=
  nmsKeep nms_threshold
    (List.insertionSort scoreGe
      (items.filter (fun it => decide (score_threshold ≤ it.2))))

/-- Suppressor `remove_overlapping_items`, lines 76-113 of `butcher.py`:
for each key of the data pack, split the items into boxes and scores, run the
suppression routine, and rebind the key to the selected items.  Defaults in the
source: `nms_threshold = 0.3`, `score_threshold = 0.5`. -/
def remove_overlapping_items (data_pack : DataPack ℕ Item)
    (nms_threshold score_threshold : ℚ) : DataPack ℕ Item :=
  data_pack.map (fun kv => (kv.1, nmsBoxesKeep kv.2 score_threshold nms_threshold))

/-- In-memory image: height, width, and a pixel function (numpy `ndarray` of
shape `(height, width, 3)`); a pixel is a channel triple. -/
structure Image where
  height : ℕ
  width : ℕ
  px : ℕ → ℕ → ℚ × ℚ × ℚ

/-- Python slice-bound normalization for step `1` along an axis of length
`len`: a negative bound counts from the end (`len + v`, floored at `0`), a
nonnegative bound is capped at `len`. -/
def pySlice (v : ℤ) (len : ℕ) : ℕ :=
  if v < 0 then ((len : ℤ) + v).toNat else min v.toNat len

/-- Crop `image[zone[2]:zone[3], zone[0]:zone[1]]` of lines 193-196 of
`butcher.py`: rows `y_min..y_max`, columns `x_min..x_max`, with numpy basic
slicing (Python slice semantics on each axis). -/
def cropZone (img : Image) (z : Zone) : Image :=
  let y0 := pySlice z.2.2.1 img.height
  let y1 := pySlice z.2.2.2 img.height
  let x0 := pySlice z.1 img.width
  let x1 := pySlice z.2.1 img.width
  ⟨y1 - y0, x1 - x0, fun i j => img.px (y0 + i) (x0 + j)⟩

/-- Channel swap of one pixel: `(b, g, r) ↦ (r, g, b)`. -/
def pixSwap (p : ℚ × ℚ × ℚ) : ℚ × ℚ × ℚ := (p.2.2, p.2.1, p.1)

/-- Modelled from the spec (§4.3): `cv2.cvtColor(..., cv2.COLOR_BGR2RGB)`
(external OpenCV routine) — convert the crop from the native BGR channel order
to RGB, pixel by pixel. -/
def cvtColorBGR2RGB (img : Image) : Image :=
  ⟨img.height, img.width, fun i j => pixSwap (img.px i j)⟩

/-- Extractor `extract_image_segments`, lines 164-201 of `butcher.py`, on its
declared input shape `DataPack[IDs, Tuple[ZoneInt, float]]`: for every key, for
every item, read `zone = data[0]`, crop the image to the zone and color-convert
the crop. -/
def extract_image_segments (image : Image) (data_pack : DataPack ℕ Item) :
    DataPack ℕ Image :=
  data_pack.map
    (fun kv => (kv.1, kv.2.map (fun data => cvtColorBGR2RGB (cropZone image data.1))))

/-- Dynamic (untyped) Python value, used to state how the three components read
each other's per-item data at runtime. -/
inductive PyVal where
  | pint (z : ℤ)
  | pflt (q : ℚ)
  | ptup (l : List PyVal)

/-- Python subscription `v[i]`: defined only on tuples with `i` in range;
`none` models the `TypeError`/`IndexError` raised otherwise. -/
def pyGetItem : PyVal → ℕ → Option PyVal
  | .ptup l, i => l.get? i
  | _, _ => none

/-- Runtime layout of the per-item tuple built by the Decoder at lines 156-159:
the flat 5-tuple `(int(x), int(x + w), int(y), int(y + h), score)`. -/
def data5ToPy (v : Data5) : PyVal :=
  .ptup [.pint v.1, .pint v.2.1, .pint v.2.2.1, .pint v.2.2.2.1, .pflt v.2.2.2.2]

/-- What the Suppressor reads as the box of an item: `x[0]` (line 102). -/
def suppressorBoxRead (x : PyVal) : Option PyVal := pyGetItem x 0

/-- What the Suppressor reads as the confidence of an item: `x[1]`
(line 103). -/
def suppressorConfRead (x : PyVal) : Option PyVal := pyGetItem x 1

/-- What the Extractor reads as the row-start coordinate of an item:
`data[0]` then `zone[2]` (lines 190 and 194). -/
def extractorZoneYRead (data : PyVal) : Option PyVal :=
  (pyGetItem data 0).bind (fun zone => pyGetItem zone 2)

/-- Concrete 100×100 all-black image used by concrete evaluations. -/
def img100 : Image := ⟨100, 100, fun _ _ => (0, 0, 0)⟩

/-- Claim-side Decoder row processing, following the words of the spec (§4.1):
the score vector consists of the fields immediately following the row's first
four numeric fields, i.e. `detection[4:]` instead of the source's
`detection[5:]`.  Kept for comparison with `processRow`. -/
def processRowSpecScores (img_width img_height : ℚ) (keys : List ℕ)
    (fridge : DataPack ℕ Data5) (d : Row) : DataPack ℕ Data5 :=
  if argmaxQ (d.drop 4) ∈ keys then
    dictAppend fridge (argmaxQ (d.drop 4))
      (let scores := d.drop 4
       let score := scores.getD (argmaxQ scores) 0
       let w := d.getD 2 0 * img_width
       let h := d.getD 3 0 * img_height
       let x := d.getD 0 0 * img_width - w / 2
       let y := d.getD 1 0 * img_height - h / 2
       (pyInt x, pyInt (x + w), pyInt y, pyInt (y + h), score))
  else fridge

/-- Claim-side Decoder loop built on `processRowSpecScores` (score vector read
from index 4 onward, as the spec's §4.1 words state). -/
def get_coordinatesSpecScoresGo (img_width img_height : ℚ)
    (output_data : List (List Row)) (keys : KeysArg) : DataPack ℕ Data5 :=
  output_data.foldl
    (fun fridge detections =>
      detections.foldl (processRowSpecScores img_width img_height (keysToList keys)) fridge)
    []

/-! Helper lemmas. -/

/-- Python `int()` truncates toward zero: floor on nonnegative arguments,
ceiling on negative ones. -/
theorem pyInt_trunc (q : ℚ) : pyInt q = if 0 ≤ q then ⌊q⌋ else ⌈q⌉ := by
  unfold pyInt
  by_cases h : 0 ≤ q
  · rw [if_pos h, Rat.floor_def]
    exact Int.tdiv_eq_ediv (Rat.num_nonneg.mpr h) (Int.ofNat_nonneg q.den)
  · rw [if_neg h]
    have hceil : ⌈q⌉ = -⌊-q⌋ := by rw [Int.floor_neg, neg_neg]
    have hnum : q.num.tdiv (q.den : ℤ) = -((-q.num).tdiv (q.den : ℤ)) := by
      rw [Int.neg_tdiv, neg_neg]
    rw [hceil, hnum, Rat.floor_def]
    have hden : ((-q).den : ℤ) = (q.den : ℤ) := by rw [Rat.neg_den]
    have hn : (-q).num = -q.num := Rat.neg_num q
    rw [hn, hden]
    congr 1
    exact Int.tdiv_eq_ediv
      (by
        have : q.num < 0 := Rat.num_neg.mpr (lt_of_not_ge h)
        omega)
      (Int.ofNat_nonneg q.den)

theorem dictFind_dictAppend {V : Type} (dp : DataPack ℕ V) (k0 k : ℕ) (v : V) :
    dictFind (dictAppend dp k0 v) k =
      if k = k0 then some ((dictFind dp k0).getD [] ++ [v]) else dictFind dp k := by
  induction dp with
  | nil =>
      by_cases h : k = k0 <;> simp [dictAppend, dictFind, h]
  | cons kv rest ih =>
      obtain ⟨k1, l⟩ := kv
      by_cases h0 : k0 = k1
      · subst h0
        by_cases h : k = k0 <;> simp [dictAppend, dictFind, h]
      · by_cases h : k = k1
        · subst h
          simp [dictAppend, dictFind, h0, Ne.symm h0]
        · simp [dictAppend, dictFind, h0, h, ih]

/-- Inversion for the Decoder loop: any item found in the accumulated fridge
either was already there or is the decoded data of one of the scanned rows,
filed under its argmax key. -/
theorem mem_foldl_processRow (W H : ℚ) (keys : List ℕ) :
    ∀ (rows : List Row) (fridge : DataPack ℕ Data5) (k : ℕ) (l : List Data5)
      (it : Data5),
      dictFind (rows.foldl (processRow W H keys) fridge) k = some l → it ∈ l →
      (∃ l0, dictFind fridge k = some l0 ∧ it ∈ l0) ∨
      ∃ d, d ∈ rows ∧ argmaxQ (d.drop 5) = k ∧ k ∈ keys ∧ it = rowData W H d := by
  intro rows
  induction rows with
  | nil =>
      intro fridge k l it hfind hit
      exact .inl ⟨l, hfind, hit⟩
  | cons d rows ih =>
      intro fridge k l it hfind hit
      rw [List.foldl_cons] at hfind
      rcases ih (processRow W H keys fridge d) k l it hfind hit with
        ⟨l0, hf0, hit0⟩ | ⟨d1, hd1, hk1, hkeys1, hit1⟩
      · unfold processRow at hf0
        by_cases hmem : argmaxQ (d.drop 5) ∈ keys
        · rw [if_pos hmem, dictFind_dictAppend] at hf0
          by_cases hk : k = argmaxQ (d.drop 5)
          · rw [if_pos hk] at hf0
            cases hfd : dictFind fridge (argmaxQ (d.drop 5)) with
            | none =>
                rw [hfd] at hf0
                simp only [Option.getD_none, List.nil_append, Option.some.injEq] at hf0
                subst hf0
                exact .inr ⟨d, List.mem_cons_self _ _, hk.symm, hk ▸ hmem,
                  List.mem_singleton.mp hit0⟩
            | some l1 =>
                rw [hfd] at hf0
                simp only [Option.getD_some, Option.some.injEq] at hf0
                subst hf0
                rcases List.mem_append.mp hit0 with h | h
                · exact .inl ⟨l1, by rw [hk]; exact hfd, h⟩
                · exact .inr ⟨d, List.mem_cons_self _ _, hk.symm, hk ▸ hmem,
                    List.mem_singleton.mp h⟩
          · rw [if_neg hk] at hf0
            exact .inl ⟨l0, hf0, hit0⟩
        · rw [if_neg hmem] at hf0
          exact .inl ⟨l0, hf0, hit0⟩
      · exact .inr ⟨d1, List.mem_cons_of_mem _ hd1, hk1, hkeys1, hit1⟩

/-- The nested Decoder loop is the flat loop over the concatenation of the
output tensors. -/
theorem get_coordinatesGo_eq_foldl_flatten (W H : ℚ) (output_data : List (List Row))
    (keys : KeysArg) :
    get_coordinatesGo W H output_data keys =
      output_data.flatten.foldl (processRow W H (keysToList keys)) [] := by
  unfold get_coordinatesGo
  rw [List.foldl_flatten]

/-- Any item of the Decoder's output comes from one of the input rows,
decoded by `rowData` and filed under its argmax key. -/
theorem mem_get_coordinatesGo (W H : ℚ) (output_data : List (List Row))
    (keys : KeysArg) (k : ℕ) (l : List Data5) (it : Data5)
    (hfind : dictFind (get_coordinatesGo W H output_data keys) k = some l)
    (hit : it ∈ l) :
    ∃ d, d ∈ output_data.flatten ∧ argmaxQ (d.drop 5) = k ∧ k ∈ keysToList keys ∧
      it = rowData W H d := by
  rw [get_coordinatesGo_eq_foldl_flatten] at hfind
  rcases mem_foldl_processRow W H (keysToList keys) output_data.flatten [] k l it
      hfind hit with ⟨_, hf, _⟩ | h
  · cases hf
  · exact h

theorem argmaxQ_lt_length : ∀ (l : List ℚ), l ≠ [] → argmaxQ l < l.length
  | [], h => absurd rfl h
  | [_], _ => by simp [argmaxQ]
  | a :: b :: rest, _ => by
      rw [argmaxQ]
      by_cases hc : (b :: rest).getD (argmaxQ (b :: rest)) 0 ≤ a
      · rw [if_pos hc]
        simp
      · rw [if_neg hc]
        have := argmaxQ_lt_length (b :: rest) (by simp)
        simp only [List.length_cons] at this ⊢
        omega

theorem argmaxQ_spec_le :
    ∀ (l : List ℚ) (j : ℕ), j < l.length → l.getD j 0 ≤ l.getD (argmaxQ l) 0
  | [], j, h => absurd h (by simp)
  | [a], j, h => by
      have : j = 0 := by simpa using Nat.lt_one_iff.mp (by simpa using h)
      subst this
      simp [argmaxQ]
  | a :: b :: rest, j, h => by
      rw [argmaxQ]
      by_cases hc : (b :: rest).getD (argmaxQ (b :: rest)) 0 ≤ a
      · rw [if_pos hc]
        cases j with
        | zero => simp
        | succ j =>
            simp only [List.getD_cons_succ]
            exact le_trans
              (argmaxQ_spec_le (b :: rest) j (by simpa using Nat.succ_lt_succ_iff.mp h))
              hc
      · rw [if_neg hc]
        cases j with
        | zero =>
            simp only [List.getD_cons_zero, List.getD_cons_succ]
            exact le_of_lt (lt_of_not_ge hc)
        | succ j =>
            simp only [List.getD_cons_succ]
            exact argmaxQ_spec_le (b :: rest) j (by simpa using Nat.succ_lt_succ_iff.mp h)

theorem argmaxQ_spec_first :
    ∀ (l : List ℚ) (j : ℕ), j < argmaxQ l → l.getD j 0 < l.getD (argmaxQ l) 0
  | [], j, h => absurd h (by simp [argmaxQ])
  | [a], j, h => absurd h (by simp [argmaxQ])
  | a :: b :: rest, j, h => by
      rw [argmaxQ] at h ⊢
      by_cases hc : (b :: rest).getD (argmaxQ (b :: rest)) 0 ≤ a
      · rw [if_pos hc] at h
        exact absurd h (by simp)
      · rw [if_neg hc] at h ⊢
        cases j with
        | zero =>
            simp only [List.getD_cons_zero, List.getD_cons_succ]
            exact lt_of_not_ge hc
        | succ j =>
            simp only [List.getD_cons_succ]
            exact argmaxQ_spec_first (b :: rest) j (Nat.succ_lt_succ_iff.mp h)

theorem pairwiseOfForallRel {α : Type} (R : α → α → Prop) (h : ∀ x y, R x y) :
    ∀ l : List α, l.Pairwise R
  | [] => .nil
  | x :: rest => .cons (fun y _ => h x y) (pairwiseOfForallRel R h rest)

theorem nmsKeepFuel_sublist (T : ℚ) :
    ∀ (fuel : ℕ) (l : List Item), List.Sublist (nmsKeepFuel T fuel l) l
  | fuel, [] => by
      cases fuel <;> simp [nmsKeepFuel]
  | 0, x :: rest => by
      simp [nmsKeepFuel]
  | fuel + 1, x :: rest => by
      rw [nmsKeepFuel]
      exact List.Sublist.cons₂ x
        ((nmsKeepFuel_sublist T fuel _).trans (List.filter_sublist _))

theorem nmsKeepFuel_pairwise (T : ℚ) :
    ∀ (fuel : ℕ) (l : List Item),
      (nmsKeepFuel T fuel l).Pairwise (fun x y => iou x.1 y.1 ≤ T)
  | fuel, [] => by
      cases fuel <;> simp [nmsKeepFuel]
  | 0, x :: rest => by
      simp [nmsKeepFuel]
  | fuel + 1, x :: rest => by
      rw [nmsKeepFuel]
      refine List.Pairwise.cons ?_ (nmsKeepFuel_pairwise T fuel _)
      intro y hy
      have hy2 : y ∈ rest.filter (fun y => decide (iou x.1 y.1 ≤ T)) :=
        (nmsKeepFuel_sublist T fuel _).subset hy
      exact of_decide_eq_true (List.mem_filter.mp hy2).2

theorem nmsKeepFuel_eq_of_pairwise (T : ℚ) :
    ∀ (fuel : ℕ) (l : List Item), l.length ≤ fuel →
      l.Pairwise (fun x y => iou x.1 y.1 ≤ T) → nmsKeepFuel T fuel l = l
  | fuel, [], _, _ => by
      cases fuel <;> simp [nmsKeepFuel]
  | 0, x :: rest, h, _ => by
      simp at h
  | fuel + 1, x :: rest, h, hp => by
      rw [nmsKeepFuel]
      rcases List.pairwise_cons.mp hp with ⟨hx, hrest⟩
      have hf : rest.filter (fun y => decide (iou x.1 y.1 ≤ T)) = rest :=
        List.filter_eq_self.mpr (fun y hy => decide_eq_true (hx y hy))
      rw [hf]
      have hlen : rest.length ≤ fuel := by
        simp only [List.length_cons] at h
        omega
      rw [nmsKeepFuel_eq_of_pairwise T fuel rest hlen hrest]

theorem interArea_nonneg (a b : Zone) : 0 ≤ interArea a b :=
  mul_nonneg (le_max_left 0 _) (le_max_left 0 _)

theorem interArea_le_boxArea_left (a b : Zone) : interArea a b ≤ boxArea a := by
  unfold interArea boxArea
  exact mul_le_mul
    (max_le_max le_rfl (sub_le_sub (min_le_left _ _) (le_max_left _ _)))
    (max_le_max le_rfl (sub_le_sub (min_le_left _ _) (le_max_left _ _)))
    (le_max_left 0 _) (le_max_left 0 _)

theorem interArea_le_boxArea_right (a b : Zone) : interArea a b ≤ boxArea b := by
  unfold interArea boxArea
  exact mul_le_mul
    (max_le_max le_rfl (sub_le_sub (min_le_right _ _) (le_max_right _ _)))
    (max_le_max le_rfl (sub_le_sub (min_le_right _ _) (le_max_right _ _)))
    (le_max_left 0 _) (le_max_left 0 _)

/-- IoU never exceeds `1`: the intersection is at most the union. -/
theorem iou_le_one (a b : Zone) : iou a b ≤ 1 := by
  unfold iou
  have hI0 : 0 ≤ interArea a b := interArea_nonneg a b
  have hIU : interArea a b ≤ boxArea a + boxArea b - interArea a b := by
    have h1 := interArea_le_boxArea_left a b
    have h2 := interArea_le_boxArea_right a b
    linarith
  rcases eq_or_lt_of_le (le_trans hI0 hIU) with h | h
  · rw [← h, div_zero]
    norm_num
  · exact (div_le_one h).mpr hIU

theorem nmsBoxesKeep_subset (v : List Item) (S T : ℚ) :
    ∀ x ∈ nmsBoxesKeep v S T, x ∈ v := by
  intro x hx
  unfold nmsBoxesKeep nmsKeep at hx
  have h1 : x ∈ List.insertionSort scoreGe (v.filter (fun it => decide (S ≤ it.2))) :=
    (nmsKeepFuel_sublist T _ _).subset hx
  have h2 := (List.perm_insertionSort scoreGe _).subset h1
  exact (List.mem_filter.mp h2).1

theorem nmsBoxesKeep_length_le (v : List Item) (S T : ℚ) :
    (nmsBoxesKeep v S T).length ≤ v.length := by
  unfold nmsBoxesKeep nmsKeep
  calc (nmsKeepFuel T _ _).length
      ≤ (List.insertionSort scoreGe (v.filter (fun it => decide (S ≤ it.2)))).length :=
        (nmsKeepFuel_sublist T _ _).length_le
    _ = (v.filter (fun it => decide (S ≤ it.2))).length :=
        (List.perm_insertionSort scoreGe _).length_eq
    _ ≤ v.length := List.length_filter_le _ _

/-- Greedy NMS is idempotent: its output passes the score filter unchanged, is
already sorted, and contains no pair exceeding the overlap threshold. -/
theorem nmsBoxesKeep_idem (v : List Item) (S T : ℚ) :
    nmsBoxesKeep (nmsBoxesKeep v S T) S T = nmsBoxesKeep v S T := by
  have hmemS : ∀ x ∈ nmsBoxesKeep v S T, (fun it => decide (S ≤ it.2)) x = true := by
    intro x hx
    unfold nmsBoxesKeep nmsKeep at hx
    have h1 : x ∈ List.insertionSort scoreGe (v.filter (fun it => decide (S ≤ it.2))) :=
      (nmsKeepFuel_sublist T _ _).subset hx
    have h2 := (List.perm_insertionSort scoreGe _).subset h1
    exact (List.mem_filter.mp h2).2
  have hfilter : (nmsBoxesKeep v S T).filter (fun it => decide (S ≤ it.2))
      = nmsBoxesKeep v S T := List.filter_eq_self.mpr hmemS
  have hsorted : (nmsBoxesKeep v S T).Pairwise scoreGe := by
    have hs : (List.insertionSort scoreGe
        (v.filter (fun it => decide (S ≤ it.2)))).Pairwise scoreGe :=
      List.sorted_insertionSort scoreGe _
    unfold nmsBoxesKeep nmsKeep
    exact List.Pairwise.sublist (nmsKeepFuel_sublist T _ _) hs
  have hins : List.insertionSort scoreGe (nmsBoxesKeep v S T) = nmsBoxesKeep v S T :=
    List.Sorted.insertionSort_eq hsorted
  have hpair : (nmsBoxesKeep v S T).Pairwise (fun x y => iou x.1 y.1 ≤ T) := by
    unfold nmsBoxesKeep nmsKeep
    exact nmsKeepFuel_pairwise T _ _
  calc nmsBoxesKeep (nmsBoxesKeep v S T) S T
      = nmsKeep T (List.insertionSort scoreGe
          ((nmsBoxesKeep v S T).filter (fun it => decide (S ≤ it.2)))) := rfl
    _ = nmsKeep T (nmsBoxesKeep v S T) := by rw [hfilter, hins]
    _ = nmsBoxesKeep v S T :=
        nmsKeepFuel_eq_of_pairwise T _ _ le_rfl hpair

/-! Claim theorems. -/

/-- C1: the claim says the per-item value the Decoder appends is exactly the
shape the Suppressor reads as `(box, confidence)` via `x[0]`/`x[1]` and the
Extractor reads as a box via `data[0]`.  In the code the Decoder appends a
flat 5-tuple `(x_min, x_max, y_min, y_max, score)`: on the decoded candidate
`(10, 50, 10, 50, 0.9)` the Suppressor's `x[1]` reads the coordinate `50`
(not the confidence `0.9`), and the Extractor's `zone[2]` subscripts the
integer `10`, which raises (`none`).  The components do not compose on one
shared shape. -/
theorem c1_pipeline_shape_mismatch :
    dictFind (get_coordinatesGo 100 100 [[[3/10, 3/10, 2/5, 2/5, 0, 9/10]]]
        (KeysArg.list [0])) 0 = some [(10, 50, 10, 50, 9/10)]
    ∧ suppressorBoxRead (data5ToPy (10, 50, 10, 50, 9/10)) = some (PyVal.pint 10)
    ∧ suppressorConfRead (data5ToPy (10, 50, 10, 50, 9/10)) = some (PyVal.pint 50)
    ∧ suppressorConfRead (data5ToPy (10, 50, 10, 50, 9/10)) ≠ some (PyVal.pflt (9/10))
    ∧ extractorZoneYRead (data5ToPy (10, 50, 10, 50, 9/10)) = none := by
  refine ⟨by decide, rfl, rfl, ?_, rfl⟩
  intro h
  exact PyVal.noConfusion (Option.some.inj h)

/-- C2: the claim says `get_coordinates` returns an empty Detection set on an
empty input row sequence without failing before or while scanning rows.  The
code raises `ValueError` at line 136 (`img_height, img_width = ()`) before any
row is scanned; the loop itself (second conjunct) would indeed yield the empty
dictionary on empty input. -/
theorem c2_decoder_raises_before_scanning (keys : KeysArg) :
    get_coordinates [] keys = Except.error PyErr.valueError
    ∧ ∀ (W H : ℚ), get_coordinatesGo W H [] keys = [] :=
  ⟨rfl, fun _ _ => rfl⟩

/-- C3 counterexample: the claim says box `(-5, 20, -5, 20)` on a 100×100
image is clamped to `(0, 20, 0, 20)` and yields a 20×20 segment.  Python
slice semantics turn the negative bound `-5` into index `95`, so the slice
`95:20` is empty: the segment is 0×0, not 20×20. -/
theorem c3_counterexample :
    extract_image_segments img100 [(0, [((-5, 20, -5, 20), 9/10)])]
      = [(0, [cvtColorBGR2RGB (cropZone img100 (-5, 20, -5, 20))])]
    ∧ (cropZone img100 (-5, 20, -5, 20)).height = 0
    ∧ (cropZone img100 (-5, 20, -5, 20)).width = 0
    ∧ (cropZone img100 (-5, 20, -5, 20)).height ≠ 20 :=
  ⟨rfl, by decide, by decide, by decide⟩

/-- C3 amended: the Extractor crops with Python slice semantics; for a box
with nonnegative coordinates this is the intersection with the image
rectangle (each bound capped at the image dimension), the crop's pixels are
read from the image at the offset of the clamped box corner, and the crop is
color-converted pixelwise; no box faults. -/
theorem c3_extractor_python_slice (img : Image) (x0 x1 y0 y1 : ℤ) (c : ℚ) (k : ℕ)
    (hx0 : 0 ≤ x0) (hx1 : 0 ≤ x1) (hy0 : 0 ≤ y0) (hy1 : 0 ≤ y1) :
    extract_image_segments img [(k, [((x0, x1, y0, y1), c)])]
      = [(k, [cvtColorBGR2RGB (cropZone img (x0, x1, y0, y1))])]
    ∧ (cropZone img (x0, x1, y0, y1)).height
        = min y1.toNat img.height - min y0.toNat img.height
    ∧ (cropZone img (x0, x1, y0, y1)).width
        = min x1.toNat img.width - min x0.toNat img.width
    ∧ ∀ i j, (cvtColorBGR2RGB (cropZone img (x0, x1, y0, y1))).px i j
        = pixSwap (img.px (min y0.toNat img.height + i) (min x0.toNat img.width + j)) := by
  have hs : ∀ (v : ℤ), 0 ≤ v → ∀ len : ℕ, pySlice v len = min v.toNat len := by
    intro v hv len
    unfold pySlice
    rw [if_neg (not_lt.mpr hv)]
  refine ⟨rfl, ?_, ?_, ?_⟩
  · show pySlice y1 img.height - pySlice y0 img.height = _
    rw [hs y1 hy1, hs y0 hy0]
  · show pySlice x1 img.width - pySlice x0 img.width = _
    rw [hs x1 hx1, hs x0 hx0]
  · intro i j
    show pixSwap (img.px (pySlice y0 img.height + i) (pySlice x0 img.width + j)) = _
    rw [hs y0 hy0, hs x0 hx0]

theorem c3_witness :
    ((0:ℤ) ≤ 5 ∧ (0:ℤ) ≤ 25 ∧ (0:ℤ) ≤ 10 ∧ (0:ℤ) ≤ 30)
    ∧ (extract_image_segments img100 [(0, [((5, 25, 10, 30), 1/2)])]
        = [(0, [cvtColorBGR2RGB (cropZone img100 (5, 25, 10, 30))])]
      ∧ (cropZone img100 (5, 25, 10, 30)).height
          = min (30:ℤ).toNat img100.height - min (10:ℤ).toNat img100.height
      ∧ (cropZone img100 (5, 25, 10, 30)).width
          = min (25:ℤ).toNat img100.width - min (5:ℤ).toNat img100.width
      ∧ ∀ i j, (cvtColorBGR2RGB (cropZone img100 (5, 25, 10, 30))).px i j
          = pixSwap (img100.px (min (10:ℤ).toNat img100.height + i)
              (min (5:ℤ).toNat img100.width + j))) :=
  ⟨by decide,
   c3_extractor_python_slice img100 5 25 10 30 (1/2) 0
     (by decide) (by decide) (by decide) (by decide)⟩

/-- C4: every decoded candidate's box is obtained from the row's normalized
fields by the §4.1 step-3 formulas, with each of the four coordinates rounded
to an integer by truncation toward zero (`pyInt`):
`x_min = int(cx*W - w/2)`, `x_max = int((cx*W - w/2) + w)` and likewise for
the y axis — so `x_max = x_min + w` and `y_max = y_min + h` hold before
rounding and each coordinate is truncated. -/
theorem c4_box_truncation (W H : ℚ) (output_data : List (List Row))
    (keys : KeysArg) (k : ℕ) (l : List Data5) (it : Data5)
    (hfind : dictFind (get_coordinatesGo W H output_data keys) k = some l)
    (hit : it ∈ l) :
    ∃ d, d ∈ output_data.flatten ∧
      it.1 = pyInt (d.getD 0 0 * W - d.getD 2 0 * W / 2) ∧
      it.2.1 = pyInt ((d.getD 0 0 * W - d.getD 2 0 * W / 2) + d.getD 2 0 * W) ∧
      it.2.2.1 = pyInt (d.getD 1 0 * H - d.getD 3 0 * H / 2) ∧
      it.2.2.2.1 = pyInt ((d.getD 1 0 * H - d.getD 3 0 * H / 2) + d.getD 3 0 * H) := by
  rcases mem_get_coordinatesGo W H output_data keys k l it hfind hit with
    ⟨d, hd, _, _, hit_eq⟩
  subst hit_eq
  exact ⟨d, hd, rfl, rfl, rfl, rfl⟩

theorem c4_witness :
    dictFind (get_coordinatesGo 100 100 [[[3/10, 3/10, 2/5, 2/5, 0, 9/10]]]
        (KeysArg.list [0])) 0 = some [(10, 50, 10, 50, 9/10)]
    ∧ ((10:ℤ), (50:ℤ), (10:ℤ), (50:ℤ), (9:ℚ)/10) ∈
        [((10:ℤ), (50:ℤ), (10:ℤ), (50:ℤ), (9:ℚ)/10)]
    ∧ ∃ d, d ∈ ([[[3/10, 3/10, 2/5, 2/5, 0, 9/10]]] : List (List Row)).flatten ∧
        ((10:ℤ), (50:ℤ), (10:ℤ), (50:ℤ), (9:ℚ)/10).1
          = pyInt (d.getD 0 0 * 100 - d.getD 2 0 * 100 / 2) ∧
        ((10:ℤ), (50:ℤ), (10:ℤ), (50:ℤ), (9:ℚ)/10).2.1
          = pyInt ((d.getD 0 0 * 100 - d.getD 2 0 * 100 / 2) + d.getD 2 0 * 100) ∧
        ((10:ℤ), (50:ℤ), (10:ℤ), (50:ℤ), (9:ℚ)/10).2.2.1
          = pyInt (d.getD 1 0 * 100 - d.getD 3 0 * 100 / 2) ∧
        ((10:ℤ), (50:ℤ), (10:ℤ), (50:ℤ), (9:ℚ)/10).2.2.2.1
          = pyInt ((d.getD 1 0 * 100 - d.getD 3 0 * 100 / 2) + d.getD 3 0 * 100) :=
  ⟨by decide, by decide,
   c4_box_truncation 100 100 [[[3/10, 3/10, 2/5, 2/5, 0, 9/10]]]
     (KeysArg.list [0]) 0 [(10, 50, 10, 50, 9/10)] (10, 50, 10, 50, 9/10)
     (by decide) (by decide)⟩

/-- C5 counterexample: the claim says the score vector consists of the fields
immediately following the row's first four numeric fields.  The code reads
`detection[5:]`, skipping a fifth field.  On the row
`(0.5, 0.5, 0.2, 0.2, 0.9, 0.1, 0.8)` with retained keys `{0, 1}` the code
files the candidate under key 1 with confidence 0.8, whereas the
claim's reading (scores from index 4) files it under key 0 with
confidence 0.9. -/
theorem c5_counterexample :
    get_coordinatesGo 100 100 [[[1/2, 1/2, 1/5, 1/5, 9/10, 1/10, 4/5]]]
        (KeysArg.list [0, 1])
      = [(1, [(40, 60, 40, 60, 4/5)])]
    ∧ get_coordinatesSpecScoresGo 100 100 [[[1/2, 1/2, 1/5, 1/5, 9/10, 1/10, 4/5]]]
        (KeysArg.list [0, 1])
      = [(0, [(40, 60, 40, 60, 9/10)])]
    ∧ get_coordinatesGo 100 100 [[[1/2, 1/2, 1/5, 1/5, 9/10, 1/10, 4/5]]]
        (KeysArg.list [0, 1])
      ≠ get_coordinatesSpecScoresGo 100 100 [[[1/2, 1/2, 1/5, 1/5, 9/10, 1/10, 4/5]]]
        (KeysArg.list [0, 1]) :=
  ⟨by decide, by decide, by decide⟩

/-- C5 amended: the score vector used for argmax and confidence consists of
the fields from index 5 onward (the field at index 4 is skipped), and score
index `i` is used directly as the category key: every decoded candidate is
filed under `argmaxQ(row[5:])` and stores the score at that index. -/
theorem c5_score_vector_offset (W H : ℚ) (output_data : List (List Row))
    (keys : KeysArg) (k : ℕ) (l : List Data5) (it : Data5)
    (hfind : dictFind (get_coordinatesGo W H output_data keys) k = some l)
    (hit : it ∈ l) :
    ∃ d, d ∈ output_data.flatten ∧ argmaxQ (d.drop 5) = k ∧ k ∈ keysToList keys ∧
      it.2.2.2.2 = (d.drop 5).getD k 0 := by
  rcases mem_get_coordinatesGo W H output_data keys k l it hfind hit with
    ⟨d, hd, hk, hkeys, hit_eq⟩
  subst hit_eq
  refine ⟨d, hd, hk, hkeys, ?_⟩
  rw [← hk]
  rfl

theorem c5_witness :
    dictFind (get_coordinatesGo 100 100 [[[1/2, 1/2, 1/5, 1/5, 9/10, 1/10, 4/5]]]
        (KeysArg.list [0, 1])) 1 = some [(40, 60, 40, 60, 4/5)]
    ∧ ((40:ℤ), (60:ℤ), (40:ℤ), (60:ℤ), (4:ℚ)/5) ∈
        [((40:ℤ), (60:ℤ), (40:ℤ), (60:ℤ), (4:ℚ)/5)]
    ∧ ∃ d, d ∈ ([[[1/2, 1/2, 1/5, 1/5, 9/10, 1/10, 4/5]]] : List (List Row)).flatten ∧
        argmaxQ (d.drop 5) = 1 ∧ 1 ∈ keysToList (KeysArg.list [0, 1]) ∧
        ((40:ℤ), (60:ℤ), (40:ℤ), (60:ℤ), (4:ℚ)/5).2.2.2.2 = (d.drop 5).getD 1 0 :=
  ⟨by decide, by decide,
   c5_score_vector_offset 100 100 [[[1/2, 1/2, 1/5, 1/5, 9/10, 1/10, 4/5]]]
     (KeysArg.list [0, 1]) 1 [(40, 60, 40, 60, 4/5)] (40, 60, 40, 60, 4/5)
     (by decide) (by decide)⟩

/-- C6: the best category of a row is the index of the maximum of the row's
score vector — it is in range, its score is a maximum, every earlier index
has a strictly smaller score (ties resolve to the first occurrence) — the
stored confidence is the score at that index, and a retained row is filed
under exactly that key. -/
theorem c6_argmax_selection (d : Row) (h : d.drop 5 ≠ []) :
    argmaxQ (d.drop 5) < (d.drop 5).length
    ∧ (∀ j, j < (d.drop 5).length →
        (d.drop 5).getD j 0 ≤ (d.drop 5).getD (argmaxQ (d.drop 5)) 0)
    ∧ (∀ j, j < argmaxQ (d.drop 5) →
        (d.drop 5).getD j 0 < (d.drop 5).getD (argmaxQ (d.drop 5)) 0)
    ∧ (∀ (W H : ℚ), (rowData W H d).2.2.2.2 = (d.drop 5).getD (argmaxQ (d.drop 5)) 0)
    ∧ (∀ (W H : ℚ) (keys : List ℕ) (fridge : DataPack ℕ Data5),
        argmaxQ (d.drop 5) ∈ keys →
        processRow W H keys fridge d
          = dictAppend fridge (argmaxQ (d.drop 5)) (rowData W H d)) := by
  refine ⟨argmaxQ_lt_length _ h, fun j hj => argmaxQ_spec_le _ j hj,
    fun j hj => argmaxQ_spec_first _ j hj, fun _ _ => rfl, ?_⟩
  intro W H keys fridge hk
  unfold processRow
  rw [if_pos hk]

theorem c6_witness :
    ([0, 0, 0, 0, 0, 5, 7, 7] : Row).drop 5 ≠ []
    ∧ (argmaxQ (([0, 0, 0, 0, 0, 5, 7, 7] : Row).drop 5)
          < (([0, 0, 0, 0, 0, 5, 7, 7] : Row).drop 5).length
      ∧ (∀ j, j < (([0, 0, 0, 0, 0, 5, 7, 7] : Row).drop 5).length →
          (([0, 0, 0, 0, 0, 5, 7, 7] : Row).drop 5).getD j 0
            ≤ (([0, 0, 0, 0, 0, 5, 7, 7] : Row).drop 5).getD
                (argmaxQ (([0, 0, 0, 0, 0, 5, 7, 7] : Row).drop 5)) 0)
      ∧ (∀ j, j < argmaxQ (([0, 0, 0, 0, 0, 5, 7, 7] : Row).drop 5) →
          (([0, 0, 0, 0, 0, 5, 7, 7] : Row).drop 5).getD j 0
            < (([0, 0, 0, 0, 0, 5, 7, 7] : Row).drop 5).getD
                (argmaxQ (([0, 0, 0, 0, 0, 5, 7, 7] : Row).drop 5)) 0)
      ∧ (∀ (W H : ℚ), (rowData W H ([0, 0, 0, 0, 0, 5, 7, 7] : Row)).2.2.2.2
          = (([0, 0, 0, 0, 0, 5, 7, 7] : Row).drop 5).getD
              (argmaxQ (([0, 0, 0, 0, 0, 5, 7, 7] : Row).drop 5)) 0)
      ∧ (∀ (W H : ℚ) (keys : List ℕ) (fridge : DataPack ℕ Data5),
          argmaxQ (([0, 0, 0, 0, 0, 5, 7, 7] : Row).drop 5) ∈ keys →
          processRow W H keys fridge ([0, 0, 0, 0, 0, 5, 7, 7] : Row)
            = dictAppend fridge (argmaxQ (([0, 0, 0, 0, 0, 5, 7, 7] : Row).drop 5))
                (rowData W H ([0, 0, 0, 0, 0, 5, 7, 7] : Row)))) :=
  ⟨by decide, c6_argmax_selection [0, 0, 0, 0, 0, 5, 7, 7] (by decide)⟩

/-- C7 counterexample: the claim says each output list is a sub-list of the
input list.  With two disjoint boxes of confidences 0.6 and 0.9 the
suppression returns them in confidence-descending order, reversing the input
order, so the output list is not a sublist of the input list. -/
theorem c7_counterexample :
    remove_overlapping_items
        [(0, [(((0:ℤ), (10:ℤ), (0:ℤ), (10:ℤ)), (3:ℚ)/5),
              (((50:ℤ), (60:ℤ), (50:ℤ), (60:ℤ)), (9:ℚ)/10)])]
        (3/10) (1/2)
      = [(0, [(((50:ℤ), (60:ℤ), (50:ℤ), (60:ℤ)), (9:ℚ)/10),
              (((0:ℤ), (10:ℤ), (0:ℤ), (10:ℤ)), (3:ℚ)/5)])]
    ∧ ¬ List.Sublist
        [(((50:ℤ), (60:ℤ), (50:ℤ), (60:ℤ)), (9:ℚ)/10),
         (((0:ℤ), (10:ℤ), (0:ℤ), (10:ℤ)), (3:ℚ)/5)]
        [(((0:ℤ), (10:ℤ), (0:ℤ), (10:ℤ)), (3:ℚ)/5),
         (((50:ℤ), (60:ℤ), (50:ℤ), (60:ℤ)), (9:ℚ)/10)] := by
  refine ⟨by decide, ?_⟩
  intro hsub
  exact absurd (List.Sublist.eq_of_length hsub (by decide)) (by decide)

/-- C7 amended: the Suppressor preserves the key sequence (a key with no
survivor keeps an empty list, never an absent key), every element of an
output list is an element of the corresponding input list (possibly
reordered, confidence-descending), and no list ever grows. -/
theorem c7_keys_and_shrink (dp : DataPack ℕ Item) (T S : ℚ) :
    List.Forall₂
      (fun kv kv' : ℕ × List Item =>
        kv'.1 = kv.1 ∧ (∀ x ∈ kv'.2, x ∈ kv.2) ∧ kv'.2.length ≤ kv.2.length)
      dp (remove_overlapping_items dp T S) := by
  unfold remove_overlapping_items
  induction dp with
  | nil => exact List.Forall₂.nil
  | cons kv rest ih =>
      exact List.Forall₂.cons
        ⟨rfl, nmsBoxesKeep_subset kv.2 S T, nmsBoxesKeep_length_le kv.2 S T⟩ ih

/-- C8 counterexample: the claim says a threshold outside `[0, 1]` makes the
Suppressor fail with `InvalidThreshold`.  The code performs no threshold
validation: called with overlap threshold `2` it returns a normal Detection
set. -/
theorem c8_counterexample :
    remove_overlapping_items
        [(0, [(((0:ℤ), (10:ℤ), (0:ℤ), (10:ℤ)), (3:ℚ)/5),
              (((50:ℤ), (60:ℤ), (50:ℤ), (60:ℤ)), (9:ℚ)/10)])]
        2 (1/2)
      = [(0, [(((50:ℤ), (60:ℤ), (50:ℤ), (60:ℤ)), (9:ℚ)/10),
              (((0:ℤ), (10:ℤ), (0:ℤ), (10:ℤ)), (3:ℚ)/5)])] := by
  decide

/-- C8 amended: the Suppressor performs no threshold validation; thresholds
outside `[0, 1]` flow into the suppression routine unchanged — with any
overlap threshold at least `1` (IoU never exceeds `1`) it returns, per
category, exactly the score-filtered candidates in confidence-descending
order, with no error of any kind. -/
theorem c8_no_threshold_validation (dp : DataPack ℕ Item) (T S : ℚ) (hT : 1 ≤ T) :
    remove_overlapping_items dp T S
      = dp.map (fun kv =>
          (kv.1, List.insertionSort scoreGe
            (kv.2.filter (fun it => decide (S ≤ it.2))))) := by
  have hkeep : ∀ (v : List Item), nmsBoxesKeep v S T
      = List.insertionSort scoreGe (v.filter (fun it => decide (S ≤ it.2))) := by
    intro v
    unfold nmsBoxesKeep nmsKeep
    exact nmsKeepFuel_eq_of_pairwise T _ _ le_rfl
      (pairwiseOfForallRel (fun x y : Item => iou x.1 y.1 ≤ T)
        (fun x y => le_trans (iou_le_one x.1 y.1) hT) _)
  unfold remove_overlapping_items
  simp only [hkeep]

theorem c8_witness :
    (1:ℚ) ≤ 2
    ∧ remove_overlapping_items
        [(0, [(((0:ℤ), (10:ℤ), (0:ℤ), (10:ℤ)), (3:ℚ)/5),
              (((50:ℤ), (60:ℤ), (50:ℤ), (60:ℤ)), (9:ℚ)/10)])]
        2 (1/2)
      = ([(0, [(((0:ℤ), (10:ℤ), (0:ℤ), (10:ℤ)), (3:ℚ)/5),
              (((50:ℤ), (60:ℤ), (50:ℤ), (60:ℤ)), (9:ℚ)/10)])] : DataPack ℕ Item).map
          (fun kv =>
            (kv.1, List.insertionSort scoreGe
              (kv.2.filter (fun it => decide ((1:ℚ)/2 ≤ it.2))))) :=
  ⟨by norm_num,
   c8_no_threshold_validation
     [(0, [(((0:ℤ), (10:ℤ), (0:ℤ), (10:ℤ)), (3:ℚ)/5),
           (((50:ℤ), (60:ℤ), (50:ℤ), (60:ℤ)), (9:ℚ)/10)])]
     2 (1/2) (by norm_num)⟩

/-- C9: the Suppressor is idempotent — applying it a second time with the
same thresholds (both in `[0, 1]`) to its own output returns that output
unchanged, per category: same boxes, confidences and order. -/
theorem c9_suppressor_idempotent (dp : DataPack ℕ Item) (T S : ℚ)
    (hT0 : 0 ≤ T) (hT1 : T ≤ 1) (hS0 : 0 ≤ S) (hS1 : S ≤ 1) :
    remove_overlapping_items (remove_overlapping_items dp T S) T S
      = remove_overlapping_items dp T S := by
  unfold remove_overlapping_items
  induction dp with
  | nil => rfl
  | cons kv rest ih =>
      simp only [List.map_cons]
      rw [ih]
      congr 1
      show (kv.1, nmsBoxesKeep (nmsBoxesKeep kv.2 S T) S T) = (kv.1, nmsBoxesKeep kv.2 S T)
      rw [nmsBoxesKeep_idem]

theorem c9_witness :
    ((0:ℚ) ≤ 3/10 ∧ (3:ℚ)/10 ≤ 1 ∧ (0:ℚ) ≤ 1/2 ∧ (1:ℚ)/2 ≤ 1)
    ∧ remove_overlapping_items
        (remove_overlapping_items
          [(6, [(((10:ℤ), (50:ℤ), (10:ℤ), (50:ℤ)), (9:ℚ)/10),
                (((12:ℤ), (52:ℤ), (12:ℤ), (52:ℤ)), (8:ℚ)/10)])]
          (3/10) (1/2))
        (3/10) (1/2)
      = remove_overlapping_items
          [(6, [(((10:ℤ), (50:ℤ), (10:ℤ), (50:ℤ)), (9:ℚ)/10),
                (((12:ℤ), (52:ℤ), (12:ℤ), (52:ℤ)), (8:ℚ)/10)])]
          (3/10) (1/2) :=
  ⟨by norm_num,
   c9_suppressor_idempotent
     [(6, [(((10:ℤ), (50:ℤ), (10:ℤ), (50:ℤ)), (9:ℚ)/10),
           (((12:ℤ), (52:ℤ), (12:ℤ), (52:ℤ)), (8:ℚ)/10)])]
     (3/10) (1/2) (by norm_num) (by norm_num) (by norm_num) (by norm_num)⟩

/-- C10: passing a single (non-list) key behaves exactly like passing the
singleton list of that key — the key is normalized to a one-element list
before the rows are scanned, both for the full `get_coordinates` and for the
decoding loop itself. -/
theorem c10_single_key_normalized (k : ℕ) :
    (∀ (output_data : List (List Row)),
      get_coordinates output_data (KeysArg.single k)
        = get_coordinates output_data (KeysArg.list [k]))
    ∧ ∀ (W H : ℚ) (output_data : List (List Row)),
      get_coordinatesGo W H output_data (KeysArg.single k)
        = get_coordinatesGo W H output_data (KeysArg.list [k]) :=
  ⟨fun _ => rfl, fun _ _ _ => rfl⟩

end AURAH
